import Mathlib

/-!
Verification development for the `boto3utils/s3.py` helper library.

Python strings are embedded as `List Char`; each Python helper used by the
library (slicing, `str.split`, `str.join`, `str.replace`, `str.strip`,
`startswith`, `endswith`, dict lookup) is translated to an executable Lean
function below.  Stateful or I/O behaviour (the S3 client, the environment,
`datetime.utcnow`, hashing primitives from `hashlib`/`hmac`) is passed in
explicitly: paginated listing responses become a list of response records,
the process environment becomes a record of optional variable values, and
the hash/HMAC primitives become function parameters, mirroring the spec's
"external collaborator" boundary.
-/

/-- Python `s.startswith(p)` on character lists: `isPre p l` is true iff `p`
is a prefix of `l`. -/
def isPre : List Char → List Char → Bool
  | [], _ => true
  | _ :: _, [] => false
  | p :: ps, c :: cs => p == c && isPre ps cs

/-- Python `s.endswith(t)` on character lists. -/
def isSuf (s l : List Char) : Bool :=
  isPre s.reverse l.reverse

/-- Python `s.split(sep)` for a one-character separator: always returns at
least one (possibly empty) piece, mirroring `''.split(sep) == ['']`. -/
def pySplit (sep : Char) : List Char → List (List Char)
  | [] => [[]]
  | c :: cs =>
    if c = sep then [] :: pySplit sep cs
    else
      match pySplit sep cs with
      | [] => [[c]]
      | s :: ss => (c :: s) :: ss

/-- Python `sep.join(pieces)` for a one-character separator. -/
def joinSep (sep : Char) : List (List Char) → List Char
  | [] => []
  | [s] => s
  | s :: ss => s ++ sep :: joinSep sep ss

/-- The scheme marker `'s3://'` as a character list. -/
def s3p : List Char := ['s', '3', ':', '/', '/']

/-- Python `url.replace('s3://', '')`: removes every (non-overlapping,
left-to-right) occurrence of the five-character pattern anywhere in the
string, not merely a leading one. -/
def replaceS3 : List Char → List Char
  | 's' :: '3' :: ':' :: '/' :: '/' :: cs => replaceS3 cs
  | c :: cs => c :: replaceS3 cs
  | [] => []

/-- Errors raised by the Python code: `Exception('Invalid S3 url ...')` from
`urlparse`, and the `IndexError` that `url_obj[0]` raises when no non-empty
segment remains. -/
inductive UrlErr where
  | invalidUrl : UrlErr
  | idxErr : UrlErr
deriving DecidableEq, Repr

/-- The dictionary returned by `urlparse`. -/
structure UrlParts where
  bucket : List Char
  key : List Char
  filename : List Char
deriving DecidableEq, Repr

/-- Shallow embedding of `s3.urlparse` (s3.py lines 22-36): check the first
five characters, strip every occurrence of `'s3://'`, split on `'/'`, drop
empty pieces, then read bucket / key / filename off the segment list. -/
def urlparse (url : List Char) : Except UrlErr UrlParts :=
  if url.take 5 = s3p then
    match (pySplit '/' (replaceS3 url)).filter (fun s => !s.isEmpty) with
    | [] => .error .idxErr
    | b :: rest =>
      .ok ⟨b, joinSep '/' rest, (rest.getLast?).getD []⟩
  else .error .invalidUrl

/-- The `'s3://%s/%s' % (bucket, key)` formatting used throughout s3.py. -/
def s3url (b k : List Char) : List Char := s3p ++ b ++ '/' :: k

theorem pySplit_ne_nil (sep : Char) (l : List Char) : pySplit sep l ≠ [] := by
  cases l with
  | nil => simp [pySplit]
  | cons c cs =>
    simp only [pySplit]
    split
    · simp
    · split <;> simp

theorem joinSep_pySplit (sep : Char) (l : List Char) :
    joinSep sep (pySplit sep l) = l := by
  induction l with
  | nil => rfl
  | cons c cs ih =>
    by_cases hc : c = sep
    · subst hc
      have hne := pySplit_ne_nil c cs
      simp only [pySplit, if_pos rfl]
      rcases hs : pySplit c cs with _ | ⟨s, ss⟩
      · exact absurd hs hne
      · rw [hs] at ih
        simp only [joinSep]
        rw [ih]
        rfl
    · simp only [pySplit, if_neg hc]
      rcases hs : pySplit sep cs with _ | ⟨s, ss⟩
      · exact absurd hs (pySplit_ne_nil sep cs)
      · rw [hs] at ih
        cases ss with
        | nil => simpa [joinSep] using congrArg (c :: ·) ih
        | cons t ts =>
          simp only [joinSep] at ih ⊢
          rw [List.cons_append, ih]

theorem pySplit_no_sep {sep : Char} {s : List Char} (h : sep ∉ s) :
    pySplit sep s = [s] := by
  induction s with
  | nil => rfl
  | cons c cs ih =>
    have hc : ¬ c = sep := fun hh => h (hh ▸ List.mem_cons_self c cs)
    have ih2 := ih (fun hm => h (List.mem_cons_of_mem c hm))
    simp only [pySplit, if_neg hc, ih2]

theorem pySplit_append_sep {sep : Char} {s : List Char} (t : List Char)
    (h : sep ∉ s) : pySplit sep (s ++ sep :: t) = s :: pySplit sep t := by
  induction s with
  | nil => simp [pySplit]
  | cons c cs ih =>
    have hc : ¬ c = sep := fun hh => h (hh ▸ List.mem_cons_self c cs)
    have ih2 := ih (fun hm => h (List.mem_cons_of_mem c hm))
    simp only [List.cons_append, pySplit, if_neg hc, List.append_eq, ih2]

/-- `noAdjSlash l` holds when `l` has no two adjacent `'/'` characters; this
is exactly the condition under which the string contains no occurrence of
`'s3://'` (whose last two characters are slashes). -/
def noAdjSlash : List Char → Bool
  | [] => true
  | [_] => true
  | a :: b :: cs => !(a == '/' && b == '/') && noAdjSlash (b :: cs)

theorem noAdjSlash_tail {c : Char} {cs : List Char}
    (h : noAdjSlash (c :: cs) = true) : noAdjSlash cs = true := by
  cases cs with
  | nil => rfl
  | cons d ds =>
    have hh : noAdjSlash (c :: d :: ds)
        = (!(c == '/' && d == '/') && noAdjSlash (d :: ds)) := rfl
    rw [hh, Bool.and_eq_true] at h
    exact h.2

theorem replaceS3_cons_of_ne (c : Char) (cs : List Char)
    (hmis : ∀ cs1 : List Char, c = 's' → cs = '3' :: ':' :: '/' :: '/' :: cs1 → False) :
    replaceS3 (c :: cs) = c :: replaceS3 cs := by
  rw [replaceS3.eq_def]
  split
  · rename_i cs1 heq
    rw [List.cons.injEq] at heq
    exact (hmis cs1 heq.1 heq.2).elim
  · rename_i c2 cs2 hmis2 heq
    rw [List.cons.injEq] at heq
    rw [heq.1, heq.2]
  · rename_i heq
    exact absurd heq (List.cons_ne_nil c cs)

/-- A string without adjacent slashes contains no `'s3://'` occurrence, so
`replace('s3://', '')` leaves it unchanged. -/
theorem replaceS3_id : ∀ l : List Char, noAdjSlash l = true → replaceS3 l = l := by
  intro l
  induction l using replaceS3.induct with
  | case1 cs ih =>
    intro h
    exfalso
    have h3 := noAdjSlash_tail (noAdjSlash_tail (noAdjSlash_tail h))
    simp [noAdjSlash] at h3
  | case2 c cs hmis ih =>
    intro h
    rw [replaceS3_cons_of_ne c cs hmis, ih (noAdjSlash_tail h)]
  | case3 =>
    intro _
    rfl

/-- `headNotSlash l` holds when `l` does not start with `'/'`. -/
def headNotSlash : List Char → Bool
  | [] => true
  | c :: _ => !(c == '/')

/-- If splitting `k` on `'/'` produces only non-empty segments, then `k` has
no adjacent slashes and does not start with a slash. -/
theorem noAdjSlash_of_segments :
    ∀ n (k : List Char), k.length ≤ n →
      (pySplit '/' k).all (fun s => !s.isEmpty) = true →
      noAdjSlash k = true ∧ headNotSlash k = true := by
  intro n
  induction n with
  | zero =>
    intro k hk _
    rw [Nat.le_zero, List.length_eq_zero] at hk
    subst hk
    exact ⟨rfl, rfl⟩
  | succ n ih =>
    intro k hk hseg
    cases k with
    | nil => exact ⟨rfl, rfl⟩
    | cons c cs =>
      by_cases hc : c = '/'
      · exfalso
        subst hc
        simp [pySplit] at hseg
      · have hhead : headNotSlash (c :: cs) = true := by
          simp [headNotSlash, hc]
        refine ⟨?_, hhead⟩
        cases cs with
        | nil => rfl
        | cons d ds =>
          have hsplit : pySplit '/' (c :: d :: ds)
              = match pySplit '/' (d :: ds) with
                | [] => [[c]]
                | s :: ss => (c :: s) :: ss := by
            simp [pySplit, hc]
          by_cases hd : d = '/'
          · subst hd
            have hsub : (pySplit '/' ds).all (fun s => !s.isEmpty) = true := by
              rw [hsplit] at hseg
              simp [pySplit] at hseg
              simp only [List.all_eq_true]
              intro s hs
              simpa using hseg s hs
            have hlen : ds.length ≤ n := by
              simp at hk
              omega
            have hih := ih ds hlen hsub
            have hnods : noAdjSlash ('/' :: ds) = true := by
              cases ds with
              | nil => rfl
              | cons e es =>
                have he : ¬ e = '/' := by
                  have hh := hih.2
                  simp [headNotSlash] at hh
                  exact hh
                have hstep : noAdjSlash ('/' :: e :: es)
                    = (!(('/' : Char) == '/' && e == '/') && noAdjSlash (e :: es)) := rfl
                rw [hstep]
                simp [he, hih.1]
            have hstep2 : noAdjSlash (c :: '/' :: ds)
                = (!(c == '/' && ('/' : Char) == '/') && noAdjSlash ('/' :: ds)) := rfl
            rw [hstep2]
            simp [hc, hnods]
          · have hsub : (pySplit '/' (d :: ds)).all (fun s => !s.isEmpty) = true := by
              rw [hsplit] at hseg
              rcases hds : pySplit '/' (d :: ds) with _ | ⟨s, ss⟩
              · exact absurd hds (pySplit_ne_nil '/' (d :: ds))
              · rw [hds] at hseg
                simp at hseg
                have hs0 : s ≠ [] := by
                  have hcons : pySplit '/' (d :: ds)
                      = match pySplit '/' ds with
                        | [] => [[d]]
                        | s :: ss => (d :: s) :: ss := by
                    simp [pySplit, hd]
                  rw [hcons] at hds
                  rcases hds2 : pySplit '/' ds with _ | ⟨t, ts⟩ <;> rw [hds2] at hds
                  · rw [List.cons.injEq] at hds
                    intro hbad
                    rw [hbad] at hds
                    exact List.cons_ne_nil d [] hds.1
                  · rw [List.cons.injEq] at hds
                    intro hbad
                    rw [hbad] at hds
                    exact List.cons_ne_nil d t hds.1
                simp only [List.all_eq_true]
                intro s2 hs2
                rcases List.mem_cons.mp hs2 with h1 | h2
                · rw [h1]
                  simpa using hs0
                · simpa using hseg s2 h2
            have hlen : (d :: ds).length ≤ n := by
              simp at hk ⊢
              omega
            have hih := ih (d :: ds) hlen hsub
            have hstep2 : noAdjSlash (c :: d :: ds)
                = (!(c == '/' && d == '/') && noAdjSlash (d :: ds)) := rfl
            rw [hstep2]
            simp [hc, hih.1]

theorem noAdjSlash_slash_cons {k : List Char} (h1 : headNotSlash k = true)
    (h2 : noAdjSlash k = true) : noAdjSlash ('/' :: k) = true := by
  cases k with
  | nil => rfl
  | cons c cs =>
    have hc : ¬ c = '/' := by simpa [headNotSlash] using h1
    have hstep : noAdjSlash ('/' :: c :: cs)
        = (!(('/' : Char) == '/' && c == '/') && noAdjSlash (c :: cs)) := rfl
    rw [hstep]
    simp [hc, h2]

theorem noAdjSlash_append_slash {b : List Char} (k : List Char)
    (hb : '/' ∉ b) (hk : noAdjSlash ('/' :: k) = true) :
    noAdjSlash (b ++ '/' :: k) = true := by
  induction b with
  | nil => simpa using hk
  | cons a b2 ih =>
    have ha : ¬ a = '/' := fun hh => hb (hh ▸ List.mem_cons_self a b2)
    have ih2 := ih (fun hm => hb (List.mem_cons_of_mem a hm))
    rcases hb2 : b2 ++ '/' :: k with _ | ⟨x, xs⟩
    · exact absurd hb2 (by simp)
    · have hstep : noAdjSlash (a :: x :: xs)
          = (!(a == '/' && x == '/') && noAdjSlash (x :: xs)) := rfl
      rw [List.cons_append, hb2, hstep]
      rw [hb2] at ih2
      simp [ha, ih2]

theorem isPre_iff_take (p l : List Char) :
    isPre p l = true ↔ l.take p.length = p := by
  induction p generalizing l with
  | nil => simp [isPre]
  | cons a ps ih =>
    cases l with
    | nil => simp [isPre]
    | cons c cs =>
      have hstep : isPre (a :: ps) (c :: cs) = (a == c && isPre ps cs) := rfl
      rw [hstep, Bool.and_eq_true, beq_iff_eq]
      simp only [List.length_cons, List.take_succ_cons, List.cons.injEq, ih]
      constructor
      · intro h
        exact ⟨h.1.symm, h.2⟩
      · intro h
        exact ⟨h.1.symm, h.2⟩

/-- The non-empty slash-separated segments of the URL after removing every
`'s3://'` occurrence: the list `urlparse` reads its results from. -/
def segsOf (url : List Char) : List (List Char) :=
  (pySplit '/' (replaceS3 url)).filter (fun s => !s.isEmpty)

/-- Modelled from the claim's words for C8 ("splits the remainder on `'/'`,
discards empty segments, bucket = first segment, key = remaining segments
joined, filename = last segment iff more than one segment exists"): the
remainder after the scheme marker is `url.drop 5`. Used only to compare the
claimed behaviour against the embedded `urlparse`. -/
def claimParse (url : List Char) : Option UrlParts :=
  if isPre s3p url then
    match (pySplit '/' (url.drop 5)).filter (fun s => !s.isEmpty) with
    | [] => none
    | b :: rest => some ⟨b, joinSep '/' rest, (rest.getLast?).getD []⟩
  else none

/-- Claim C8 (corrected): `urlparse` fails with the invalid-URI error exactly
when the input does not begin with `'s3://'`; otherwise it removes every
occurrence of the substring `'s3://'` from the whole string (not only the
prefix), splits on `'/'`, and discards empty segments; if no segment remains
it fails with an index error, and otherwise the bucket is the first segment,
the key is the remaining segments joined by `'/'`, and the filename is the
last segment iff more than one segment exists (else empty). -/
theorem claim_C8 (url : List Char) :
    (urlparse url = .error .invalidUrl ↔ ¬ isPre s3p url = true)
    ∧ (isPre s3p url = true → segsOf url = [] → urlparse url = .error .idxErr)
    ∧ (∀ b rest, isPre s3p url = true → segsOf url = b :: rest →
        urlparse url = .ok ⟨b, joinSep '/' rest, (rest.getLast?).getD []⟩) := by
  have hpre : isPre s3p url = true ↔ url.take 5 = s3p := isPre_iff_take s3p url
  refine ⟨?_, ?_, ?_⟩
  · by_cases h : url.take 5 = s3p
    · rw [urlparse, if_pos h]
      constructor
      · intro hcontra
        rcases hs : segsOf url with _ | ⟨b, rest⟩ <;> rw [segsOf] at hs <;>
          rw [hs] at hcontra <;> simp at hcontra
      · intro hcontra
        exact absurd (hpre.mpr h) hcontra
    · rw [urlparse, if_neg h]
      simp [hpre, h]
  · intro h1 h2
    rw [urlparse, if_pos (hpre.mp h1)]
    rw [segsOf] at h2
    rw [h2]
  · intro b rest h1 h2
    rw [urlparse, if_pos (hpre.mp h1)]
    rw [segsOf] at h2
    rw [h2]

/-- Claim C8 witness: a concrete URL with a two-segment key parsed through
the corrected characterisation. -/
theorem claim_C8_witness :
    urlparse ("s3://b/x/y".toList) = .ok ⟨"b".toList, "x/y".toList, "y".toList⟩ :=
  (claim_C8 ("s3://b/x/y".toList)).2.2 "b".toList ["x".toList, "y".toList]
    (by decide) (by decide)

/-- Claim C8 counterexample: on `'s3://bucket/s3://x'` the code removes the
inner `'s3://'` occurrence as well, so its key is `'x'`, while the claim's
"split the remainder" reading predicts key `'s3:/x'`. -/
theorem claim_C8_counterexample :
    urlparse ("s3://bucket/s3://x".toList)
        = .ok ⟨"bucket".toList, "x".toList, "x".toList⟩
    ∧ claimParse ("s3://bucket/s3://x".toList)
        = some ⟨"bucket".toList, "s3:/x".toList, "x".toList⟩
    ∧ "s3:/x".toList ≠ "x".toList :=
  ⟨rfl, rfl, by decide⟩

/-- Claim C9 (confirmed): for a bucket `b` (non-empty, no slashes) and key
`k` with no empty segments, parsing `'s3://' + b + '/' + k` returns bucket
`b`, key `k`, and filename the last segment of `k`. -/
theorem claim_C9 (b k : List Char) (hb1 : b ≠ []) (hb2 : '/' ∉ b)
    (hk : (pySplit '/' k).all (fun s => !s.isEmpty) = true) :
    urlparse (s3url b k) = .ok ⟨b, k, ((pySplit '/' k).getLast?).getD []⟩ := by
  have hseg := noAdjSlash_of_segments k.length k (le_refl _) hk
  have hnods : noAdjSlash (b ++ '/' :: k) = true :=
    noAdjSlash_append_slash k hb2 (noAdjSlash_slash_cons hseg.2 hseg.1)
  have hrepl : replaceS3 (s3url b k) = b ++ '/' :: k := by
    have h1 : replaceS3 (s3url b k) = replaceS3 (b ++ '/' :: k) := rfl
    rw [h1, replaceS3_id _ hnods]
  have htake : (s3url b k).take 5 = s3p := rfl
  have hsplit2 : pySplit '/' (replaceS3 (s3url b k)) = b :: pySplit '/' k := by
    rw [hrepl, pySplit_append_sep k hb2]
  have hfilter : (b :: pySplit '/' k).filter (fun s => !s.isEmpty)
      = b :: pySplit '/' k := by
    rw [List.filter_eq_self]
    intro a ha
    rcases List.mem_cons.mp ha with h1 | h2
    · rw [h1]
      simpa using hb1
    · exact List.all_eq_true.mp hk a h2
  rw [urlparse, if_pos htake, hsplit2, hfilter]
  show Except.ok (UrlParts.mk b (joinSep '/' (pySplit '/' k))
      (((pySplit '/' k).getLast?).getD [])) = _
  rw [joinSep_pySplit]

/-- Claim C9 witness: concrete round-trip for bucket `'b'`, key `'a/c'`. -/
theorem claim_C9_witness :
    urlparse (s3url "b".toList "a/c".toList)
        = .ok ⟨"b".toList, "a/c".toList, "c".toList⟩ :=
  claim_C9 "b".toList "a/c".toList (by decide) (by decide) (by decide)

/-- One page of an `s3.list_objects_v2` response, as far as `find` reads it:
the optional `'Contents'` key list and the optional `'NextContinuationToken'`
(both `KeyError`-guarded in the source). -/
structure ListResp where
  contents : Option (List (List Char))
  nextToken : Option (List Char)
deriving DecidableEq, Repr

/-- Shallow embedding of the `while True` pagination loop of `s3.find`
(s3.py lines 120-140).  The listing collaborator is supplied as the sequence
of responses its successive calls return; each iteration reads the next
response, yields the keys passing the client-side `startswith`/`endswith`
filters, and continues only while a continuation token is present. -/
def find (pfx sfx : List Char) : List ListResp → List (List Char)
  | [] => []
  | r :: rest =>
    match r.contents with
    | none => []
    | some ks =>
      let m := ks.filter (fun k => isPre pfx k && isSuf sfx k)
      match r.nextToken with
      | none => m
      | some _ => m ++ find pfx sfx rest

/-- Build the response sequence of a listing collaborator that serves the
given pages in order, with a continuation token on every page but the last
(the shape of the claim's page model). -/
def mkResps : List (List (List Char)) → List ListResp
  | [] => []
  | [p] => [⟨some p, none⟩]
  | p :: ps => ⟨some p, some "tok".toList⟩ :: mkResps ps

theorem find_mkResps (pfx sfx : List Char) :
    ∀ pages : List (List (List Char)),
      find pfx sfx (mkResps pages)
        = pages.flatten.filter (fun k => isPre pfx k && isSuf sfx k) := by
  intro pages
  induction pages with
  | nil => rfl
  | cons p ps ih =>
    cases ps with
    | nil => simp [mkResps, find]
    | cons q ps2 =>
      simp only [mkResps, find, List.flatten_cons, List.filter_append]
      rw [ih]
      simp [List.filter_append]

/-- Claim C4 (confirmed): over any sequence of pages (tokens on all but the
last), `find` yields exactly the keys of all pages passing the filters, in
order, with no key skipped or duplicated — the output is literally the
filtered concatenation of the pages; and the concrete 1000/1000/37 mock
yields exactly 2037 keys. -/
theorem claim_C4 :
    (∀ (pages : List (List (List Char))) (pfx sfx : List Char),
        find pfx sfx (mkResps pages)
          = pages.flatten.filter (fun k => isPre pfx k && isSuf sfx k))
    ∧ find [] [] (mkResps [List.replicate 1000 "k".toList,
          List.replicate 1000 "k".toList, List.replicate 37 "k".toList])
        = List.replicate 2037 "k".toList := by
  constructor
  · intro pages pfx sfx
    exact find_mkResps pfx sfx pages
  · rw [find_mkResps]
    have hall : ∀ k : List Char, (isPre [] k && isSuf [] k) = true := by
      intro k
      rfl
    rw [List.filter_eq_self.mpr (fun a _ => hall a)]
    simp only [List.flatten_cons, List.flatten_nil, List.append_nil]
    rw [← List.replicate_add, ← List.replicate_add]

/-- The result of Python `datetime.date`: the year/month/day triple kept
after `.date()` truncation. -/
structure PyDate where
  y : Nat
  m : Nat
  d : Nat
deriving DecidableEq, Repr

/-- Python `date` comparison `a < b` (lexicographic on year, month, day). -/
def dateLt (a b : PyDate) : Bool :=
  Nat.blt a.y b.y || (a.y == b.y && (Nat.blt a.m b.m || (a.m == b.m && Nat.blt a.d b.d)))

/-- An ASCII decimal digit (the explicit `[0-9]`/`[0-5]`-style classes in
CPython's `_strptime` field patterns). -/
def isDig (c : Char) : Bool :=
  decide ('0' ≤ c) && decide (c ≤ '9')

def digToNat (c : Char) : Nat := c.toNat - 48

/-- The code-point starts of the 66 ten-character runs of Unicode
decimal-digit characters (category Nd); each run encodes the digit values
0-9 in code-point order.  CPython's `\d` for `str` patterns matches exactly
these characters, and `int()` converts them by their decimal value. -/
def ndStarts : List Nat :=
  [48, 1632, 1776, 1984, 2406, 2534, 2662, 2790, 2918, 3046, 3174, 3302,
   3430, 3558, 3664, 3792, 3872, 4160, 4240, 6112, 6160, 6470, 6608, 6784,
   6800, 6992, 7088, 7232, 7248, 42528, 43216, 43264, 43472, 43504, 43600,
   44016, 65296, 66720, 68912, 69734, 69872, 69942, 70096, 70384, 70736,
   70864, 71248, 71360, 71472, 71904, 72016, 72784, 73040, 73120, 92768,
   92864, 93008, 120782, 120792, 120802, 120812, 120822, 123200, 123632,
   125264, 130032]

/-- CPython regex `\d` on `str`: any Unicode decimal digit. -/
def isNd (c : Char) : Bool :=
  ndStarts.any (fun s => decide (s ≤ c.toNat) && decide (c.toNat < s + 10))

/-- The decimal value of a Unicode digit, as `int()` reads it. -/
def ndVal (c : Char) : Nat :=
  match ndStarts.find? (fun s => decide (s ≤ c.toNat) && decide (c.toNat < s + 10)) with
  | some s => c.toNat - s
  | none => 0

def litChar (c : Char) : List Char → Option (List Char)
  | d :: cs => if d = c then some cs else none
  | [] => none

/-- The format's literal `'T'` under `re.IGNORECASE`: exactly `'T'` or
`'t'` (no other character case-folds to `'t'`). -/
def litT : List Char → Option (List Char)
  | d :: cs => if d == 'T' || d == 't' then some cs else none
  | [] => none

/-- The format's literal `'Z'` under `re.IGNORECASE`: exactly `'Z'` or
`'z'`. -/
def litZ : List Char → Option (List Char)
  | d :: cs => if d == 'Z' || d == 'z' then some cs else none
  | [] => none

/-- `%Y`, pattern `\d\d\d\d`: exactly four Unicode digits. -/
def readYear : List Char → Option (Nat × List Char)
  | c1 :: c2 :: c3 :: c4 :: rest =>
    if isNd c1 && isNd c2 && isNd c3 && isNd c4 then
      some (((ndVal c1 * 10 + ndVal c2) * 10 + ndVal c3) * 10 + ndVal c4, rest)
    else none
  | _ => none

/-- `%m`, pattern `1[0-2]|0[1-9]|[1-9]` (ASCII only). -/
def readMonth : List Char → Option (Nat × List Char)
  | c1 :: c2 :: rest =>
    if c1 == '1' && (decide ('0' ≤ c2) && decide (c2 ≤ '2')) then
      some (10 + digToNat c2, rest)
    else if c1 == '0' && (decide ('1' ≤ c2) && decide (c2 ≤ '9')) then
      some (digToNat c2, rest)
    else if decide ('1' ≤ c1) && decide (c1 ≤ '9') then
      some (digToNat c1, c2 :: rest)
    else none
  | [c1] =>
    if decide ('1' ≤ c1) && decide (c1 ≤ '9') then some (digToNat c1, [])
    else none
  | [] => none

/-- `%d`, pattern `3[0-1]|[1-2]\d|0[1-9]|[1-9]| [1-9]`: note the `\d` in
the second alternative (a Unicode digit in the units place) and the last,
space-padded alternative. -/
def readDay : List Char → Option (Nat × List Char)
  | c1 :: c2 :: rest =>
    if c1 == '3' && (c2 == '0' || c2 == '1') then
      some (30 + digToNat c2, rest)
    else if (c1 == '1' || c1 == '2') && isNd c2 then
      some (digToNat c1 * 10 + ndVal c2, rest)
    else if c1 == '0' && (decide ('1' ≤ c2) && decide (c2 ≤ '9')) then
      some (digToNat c2, rest)
    else if decide ('1' ≤ c1) && decide (c1 ≤ '9') then
      some (digToNat c1, c2 :: rest)
    else if c1 == ' ' && (decide ('1' ≤ c2) && decide (c2 ≤ '9')) then
      some (digToNat c2, rest)
    else none
  | [c1] =>
    if decide ('1' ≤ c1) && decide (c1 ≤ '9') then some (digToNat c1, [])
    else none
  | [] => none

/-- `%H`, pattern `2[0-3]|[0-1]\d|\d`. -/
def readHour : List Char → Option (Nat × List Char)
  | c1 :: c2 :: rest =>
    if c1 == '2' && (decide ('0' ≤ c2) && decide (c2 ≤ '3')) then
      some (20 + digToNat c2, rest)
    else if (c1 == '0' || c1 == '1') && isNd c2 then
      some (digToNat c1 * 10 + ndVal c2, rest)
    else if isNd c1 then some (ndVal c1, c2 :: rest)
    else none
  | [c1] => if isNd c1 then some (ndVal c1, []) else none
  | [] => none

/-- `%M`, pattern `[0-5]\d|\d`. -/
def readMin : List Char → Option (Nat × List Char)
  | c1 :: c2 :: rest =>
    if (decide ('0' ≤ c1) && decide (c1 ≤ '5')) && isNd c2 then
      some (digToNat c1 * 10 + ndVal c2, rest)
    else if isNd c1 then some (ndVal c1, c2 :: rest)
    else none
  | [c1] => if isNd c1 then some (ndVal c1, []) else none
  | [] => none

/-- `%S`, pattern `6[0-1]|[0-5]\d|\d` (60 and 61 pass the regex for leap
seconds but are then rejected by the `datetime` constructor). -/
def readSec : List Char → Option (Nat × List Char)
  | c1 :: c2 :: rest =>
    if c1 == '6' && (c2 == '0' || c2 == '1') then
      some (60 + digToNat c2, rest)
    else if (decide ('0' ≤ c1) && decide (c1 ≤ '5')) && isNd c2 then
      some (digToNat c1 * 10 + ndVal c2, rest)
    else if isNd c1 then some (ndVal c1, c2 :: rest)
    else none
  | [c1] => if isNd c1 then some (ndVal c1, []) else none
  | [] => none

def dropDigitsUpTo : Nat → List Char → List Char
  | 0, cs => cs
  | n + 1, c :: cs => if isDig c then dropDigitsUpTo n cs else c :: cs
  | _ + 1, [] => []

/-- `%f`, pattern `[0-9]{1,6}`: one to six ASCII digits, greedily; the
value is discarded by the `.date()` truncation. -/
def readFrac : List Char → Option (List Char)
  | [] => none
  | c :: rest => if isDig c then some (dropDigitsUpTo 5 rest) else none

def isLeap (y : Nat) : Bool :=
  (y % 4 == 0 && !(y % 100 == 0)) || y % 400 == 0

def daysInMonth (y m : Nat) : Nat :=
  if m == 2 then (if isLeap y then 29 else 28)
  else if m == 4 || m == 6 || m == 9 || m == 11 then 30
  else 31

/-- Model of `datetime.strptime(s, '%Y-%m-%dT%H:%M:%S.%fZ').date()`.
CPython compiles the format into the regex
`(?P<Y>\d\d\d\d)-(?P<m>1[0-2]|0[1-9]|[1-9])-(?P<d>3[0-1]|[1-2]\d|0[1-9]|[1-9]| [1-9])T(?P<H>2[0-3]|[0-1]\d|\d):(?P<M>[0-5]\d|\d):(?P<S>6[0-1]|[0-5]\d|\d)\.(?P<f>[0-9]{1,6})Z`
with `re.IGNORECASE` (so the literals also match `'t'`/`'z'`), requires the
match to consume the whole string, converts each captured group with
`int()`, and hands the fields to the `datetime` constructor, which rejects
year 0, a day beyond the month's length, and seconds 60/61; `.date()` keeps
the year/month/day triple.  The field readers above copy the alternatives
of that regex in order; sequential greedy reading is equivalent to the
regex's backtracking because every two-character alternative requires a
digit in the position where the one-character fallback would need the next
(non-digit) literal separator.  `none` models the raised `ValueError`. -/
def parseTs (s : List Char) : Option PyDate := do
  let (yv, r1) ← readYear s
  let r2 ← litChar '-' r1
  let (mo, r3) ← readMonth r2
  let r4 ← litChar '-' r3
  let (da, r5) ← readDay r4
  let r6 ← litT r5
  let (_, r7) ← readHour r6
  let r8 ← litChar ':' r7
  let (_, r9) ← readMin r8
  let r10 ← litChar ':' r9
  let (ss, r11) ← readSec r10
  let r12 ← litChar '.' r11
  let r13 ← readFrac r12
  let r14 ← litZ r13
  if r14.isEmpty && decide (1 ≤ yv) && decide (da ≤ daysInMonth yv mo)
      && decide (ss ≤ 59) then
    some ⟨yv, mo, da⟩
  else none

/-- A parsed inventory record: the Python dict built per line, embedded as
an association list where, as for a dict comprehension, a later binding of
the same key shadows an earlier one (lookup takes the last match). -/
abbrev Rec := List (List Char × List Char)

/-- Python dict lookup `r[n]` (as an `Option`): the value of the last
binding of key `n`. -/
def pyGet (r : Rec) (n : List Char) : Option (List Char) :=
  ((r.filter (fun p => p.1 == n)).getLast?).map (fun p => p.2)

/-- Errors the scanning loop can raise: `KeyError` from a missing dict key,
`ValueError` from `datetime.strptime`, `IndexError` from `keys[i]` when a
line has more fields than the schema. -/
inductive ScanErr where
  | keyErr : ScanErr
  | valueErr : ScanErr
  | idxErr : ScanErr
deriving DecidableEq, Repr

def keyCol : List Char := "Key".toList
def bucketCol : List Char := "Bucket".toList
def urlCol : List Char := "url".toList
def lmdCol : List Char := "LastModifiedDate".toList

/-- The dict comprehension
`{keys[i]: v for i, v in enumerate(line.replace('"', '').split(','))}`:
quote characters are stripped, the line is split on commas, and the values
are zipped positionally against the schema; `keys[i]` raises `IndexError`
when the line has more values than the schema has columns. -/
def buildInfo (schema : List (List Char)) (line : List Char) :
    Except ScanErr Rec :=
  let vals := pySplit ',' (line.filter (fun c => !(c == '"')))
  if schema.length < vals.length then .error .idxErr
  else .ok (schema.zip vals)

/-- The skip condition
`(start_date is not None and dt < start_date) or (end_date is not None and dt > end_date)`. -/
def outsideWindow (startD endD : Option PyDate) (d : PyDate) : Bool :=
  (match startD with | some s => dateLt d s | none => false)
  || (match endD with | some e => dateLt e d | none => false)

/-- Shallow embedding of one iteration of the per-line loop of
`latest_inventory` (s3.py lines 172-186): build the record, drop it if it
has no `'Key'`, parse the driving timestamp (propagating `KeyError` /
`ValueError`), apply the date window and the prefix/suffix filters, and
attach the derived `'url'` field when the schema has both `'Bucket'` and
`'Key'` columns.  `.ok none` means the record was dropped; `.ok (some r)`
means `r` was yielded. -/
def processLine (schema : List (List Char)) (pfxF sfxF : Option (List Char))
    (startD endD : Option PyDate) (dtKey : List Char) (line : List Char) :
    Except ScanErr (Option Rec) :=
  match buildInfo schema line with
  | .error e => .error e
  | .ok info =>
    match pyGet info keyCol with
    | none => .ok none
    | some kv =>
      match pyGet info dtKey with
      | none => .error .keyErr
      | some dv =>
        match parseTs dv with
        | none => .error .valueErr
        | some d =>
          if outsideWindow startD endD d then .ok none
          else if (match pfxF with
                   | some p => !(kv.take p.length == p)
                   | none => false) then .ok none
          else if (match sfxF with
                   | none => true
                   | some s => isSuf s kv) then
            (if schema.contains bucketCol && schema.contains keyCol then
              match pyGet info bucketCol with
              | none => .error .keyErr
              | some bv => .ok (some (info ++ [(urlCol, s3url bv kv)]))
            else .ok (some info))
          else .ok none

/-- Run `processLine` over the lines of one data file, with generator
semantics: records yielded before a raised error are kept, the error ends
the scan, and no later line is processed. -/
def scanLines (schema : List (List Char)) (pfxF sfxF : Option (List Char))
    (startD endD : Option PyDate) (dtKey : List Char) :
    List (List Char) → List Rec × Option ScanErr
  | [] => ([], none)
  | l :: ls =>
    match processLine schema pfxF sfxF startD endD dtKey l with
    | .error e => ([], some e)
    | .ok none => scanLines schema pfxF sfxF startD endD dtKey ls
    | .ok (some r) =>
      match scanLines schema pfxF sfxF startD endD dtKey ls with
      | (rs, er) => (r :: rs, er)

/-- The parsed `manifest.json` document: its comma-joined `fileSchema`
string and the `key` fields of its `files` entries. -/
structure Manifest where
  fileSchema : List Char
  files : List (List Char)

def isPySpace (c : Char) : Bool :=
  c == ' ' || c == '\t' || c == '\n' || c == '\r' || c.toNat == 11 || c.toNat == 12

/-- Python `str.strip()`. -/
def pyStrip (s : List Char) : List Char :=
  ((s.dropWhile isPySpace).reverse.dropWhile isPySpace).reverse

/-- Scan the data files listed by a manifest: each file's contents (supplied
by the `readF` collaborator standing for `s3.read`) are split on newlines
and fed through the per-line loop; an error in one file ends the whole
scan. -/
def scanFiles (schema : List (List Char)) (pfxF sfxF : Option (List Char))
    (startD endD : Option PyDate) (dtKey : List Char)
    (readF : List Char → List Char) : List (List Char) → List Rec × Option ScanErr
  | [] => ([], none)
  | f :: fs =>
    match scanLines schema pfxF sfxF startD endD dtKey (pySplit '\n' (readF f)) with
    | (rs, some e) => (rs, some e)
    | (rs, none) =>
      match scanFiles schema pfxF sfxF startD endD dtKey readF fs with
      | (rs2, e2) => (rs ++ rs2, e2)

/-- Scan one located manifest: split and strip its `fileSchema`, then stream
its data files. -/
def scanManifest (m : Manifest) (pfxF sfxF : Option (List Char))
    (startD endD : Option PyDate) (dtKey : List Char)
    (readF : List Char → List Char) : List Rec × Option ScanErr :=
  scanFiles ((pySplit ',' m.fileSchema).map pyStrip) pfxF sfxF startD endD dtKey
    readF m.files

/-- Shallow embedding of `s3.latest_inventory` (s3.py lines 143-186).  The
two `find(..., suffix='manifest.json')` probes (today's and yesterday's
date-partitioned prefixes) are supplied as their result key lists; the
manifest-JSON collaborator `manifestOf` stands for `read_json`, and `readF`
for `read`.  The first probe with exactly one match supplies the manifest
(`if len(keys) == 1 ... break`); with no such probe — or a falsy manifest
key — the generator yields nothing (`if manifest_key:`). -/
def latest_inventory (todayKeys yKeys : List (List Char))
    (manifestOf : List Char → Manifest) (readF : List Char → List Char)
    (pfxF sfxF : Option (List Char)) (startD endD : Option PyDate)
    (dtKey : List Char) : List Rec × Option ScanErr :=
  let mk : Option (List Char) :=
    if todayKeys.length == 1 then todayKeys.head?
    else if yKeys.length == 1 then yKeys.head?
    else none
  match mk with
  | some k =>
    if k.isEmpty then ([], none)
    else scanManifest (manifestOf k) pfxF sfxF startD endD dtKey readF
  | none => ([], none)

def mjson : List Char := "manifest.json".toList

theorem isSuf_mjson_ne_nil {x : List Char} (h : isSuf mjson x = true) :
    x ≠ [] := by
  intro hx
  subst hx
  exact Bool.false_ne_true h

theorem isEmpty_false_of_ne_nil {x : List Char} (h : x ≠ []) :
    x.isEmpty = false := by
  cases x with
  | nil => exact absurd rfl h
  | cons c cs => rfl

/-- Claim C5 (confirmed): `latest_inventory` uses the first probe (today,
then yesterday) whose listing has exactly one match; if today's count is not
one but yesterday's is, yesterday's manifest is scanned; if neither count is
one, the result is the empty record sequence with no error.  The probes are
the results of `find(..., suffix='manifest.json')`, so every probed key ends
with `'manifest.json'`. -/
theorem claim_C5 (todayKeys yKeys : List (List Char))
    (manifestOf : List Char → Manifest) (readF : List Char → List Char)
    (pfxF sfxF : Option (List Char)) (startD endD : Option PyDate)
    (dtKey : List Char)
    (ht : ∀ x ∈ todayKeys, isSuf mjson x = true)
    (hy : ∀ x ∈ yKeys, isSuf mjson x = true) :
    (∀ a, todayKeys = [a] →
        latest_inventory todayKeys yKeys manifestOf readF pfxF sfxF startD endD dtKey
          = scanManifest (manifestOf a) pfxF sfxF startD endD dtKey readF)
    ∧ (todayKeys.length ≠ 1 → ∀ a, yKeys = [a] →
        latest_inventory todayKeys yKeys manifestOf readF pfxF sfxF startD endD dtKey
          = scanManifest (manifestOf a) pfxF sfxF startD endD dtKey readF)
    ∧ (todayKeys.length ≠ 1 → yKeys.length ≠ 1 →
        latest_inventory todayKeys yKeys manifestOf readF pfxF sfxF startD endD dtKey
          = ([], none)) := by
  refine ⟨?_, ?_, ?_⟩
  · intro a hta
    subst hta
    have ha : a.isEmpty = false :=
      isEmpty_false_of_ne_nil (isSuf_mjson_ne_nil (ht a (List.mem_singleton.mpr rfl)))
    simp [latest_inventory, ha]
  · intro hlen a hya
    subst hya
    have ha : a.isEmpty = false :=
      isEmpty_false_of_ne_nil (isSuf_mjson_ne_nil (hy a (List.mem_singleton.mpr rfl)))
    have hlen2 : (todayKeys.length == 1) = false := by
      simpa using hlen
    simp [latest_inventory, hlen2, ha]
  · intro hlen1 hlen2
    have h1 : (todayKeys.length == 1) = false := by simpa using hlen1
    have h2 : (yKeys.length == 1) = false := by simpa using hlen2
    simp [latest_inventory, h1, h2]

def mf0 : List Char → Manifest :=
  fun _ => ⟨"Bucket,Key,LastModifiedDate".toList, ["f1".toList]⟩

def rf0 : List Char → List Char :=
  fun _ => "b,k,2023-05-05T01:02:03.000004Z".toList

/-- Claim C5 witness: a single today's match is used. -/
theorem claim_C5_witness :
    latest_inventory ["x/manifest.json".toList] [] mf0 rf0 none none none none lmdCol
      = scanManifest (mf0 "x/manifest.json".toList) none none none none lmdCol rf0 :=
  (claim_C5 ["x/manifest.json".toList] [] mf0 rf0 none none none none lmdCol
    (by decide) (by simp)).1 "x/manifest.json".toList rfl

theorem scanLines_append_of_no_err (schema : List (List Char))
    (pfxF sfxF : Option (List Char)) (startD endD : Option PyDate)
    (dtKey : List Char) (xs ys : List (List Char))
    (h : (scanLines schema pfxF sfxF startD endD dtKey xs).2 = none) :
    scanLines schema pfxF sfxF startD endD dtKey (xs ++ ys)
      = ((scanLines schema pfxF sfxF startD endD dtKey xs).1
          ++ (scanLines schema pfxF sfxF startD endD dtKey ys).1,
         (scanLines schema pfxF sfxF startD endD dtKey ys).2) := by
  induction xs with
  | nil => simp [scanLines]
  | cons l ls ih =>
    have hcons1 : scanLines schema pfxF sfxF startD endD dtKey ((l :: ls) ++ ys)
        = match processLine schema pfxF sfxF startD endD dtKey l with
          | .error e => ([], some e)
          | .ok none => scanLines schema pfxF sfxF startD endD dtKey (ls ++ ys)
          | .ok (some r) =>
            match scanLines schema pfxF sfxF startD endD dtKey (ls ++ ys) with
            | (rs, er) => (r :: rs, er) := rfl
    have hcons2 : scanLines schema pfxF sfxF startD endD dtKey (l :: ls)
        = match processLine schema pfxF sfxF startD endD dtKey l with
          | .error e => ([], some e)
          | .ok none => scanLines schema pfxF sfxF startD endD dtKey ls
          | .ok (some r) =>
            match scanLines schema pfxF sfxF startD endD dtKey ls with
            | (rs, er) => (r :: rs, er) := rfl
    rw [hcons2] at h
    rw [hcons1, hcons2]
    rcases hp : processLine schema pfxF sfxF startD endD dtKey l with e | x
    · rw [hp] at h
      exact Option.noConfusion h
    · rcases x with _ | r
      · rw [hp] at h
        exact ih h
      · rw [hp] at h
        rcases hs : scanLines schema pfxF sfxF startD endD dtKey ls with ⟨rs, er⟩
        rw [hs] at h
        have her : er = none := by simpa using h
        subst her
        have hih := ih (by rw [hs])
        rw [hih, hs]
        simp

/-- Claim C6 (corrected): a record that has a `'Key'` column and whose
driving timestamp value fails the fixed format ends the whole scan with the
format (`ValueError`) failure at that record: records yielded before it are
kept, the error is surfaced, and no later line is processed.  (A record
without a `'Key'` column is dropped before the timestamp is parsed, which is
the correction to the claim.) -/
theorem claim_C6 (schema : List (List Char)) (pfxF sfxF : Option (List Char))
    (startD endD : Option PyDate) (dtKey : List Char)
    (front back : List (List Char)) (line : List Char) (info : Rec)
    (kv dv : List Char)
    (h1 : buildInfo schema line = .ok info)
    (h2 : pyGet info keyCol = some kv)
    (h3 : pyGet info dtKey = some dv)
    (h4 : parseTs dv = none)
    (h5 : (scanLines schema pfxF sfxF startD endD dtKey front).2 = none) :
    scanLines schema pfxF sfxF startD endD dtKey (front ++ line :: back)
      = ((scanLines schema pfxF sfxF startD endD dtKey front).1,
         some ScanErr.valueErr) := by
  have hproc : processLine schema pfxF sfxF startD endD dtKey line
      = .error .valueErr := by
    rw [processLine, h1]
    simp only [h2, h3, h4]
  rw [scanLines_append_of_no_err schema pfxF sfxF startD endD dtKey front
    (line :: back) h5]
  rw [scanLines, hproc]
  simp

/-- Claim C6 witness: with schema `Key,LastModifiedDate`, the line
`'k,badts'` has a `'Key'` column and a malformed timestamp, so the scan
fails with the format error and yields nothing after it. -/
theorem claim_C6_witness :
    scanLines [keyCol, lmdCol] none none none none lmdCol ["k,badts".toList]
      = ([], some ScanErr.valueErr) :=
  claim_C6 [keyCol, lmdCol] none none none none lmdCol [] [] "k,badts".toList
    [(keyCol, "k".toList), (lmdCol, "badts".toList)] "k".toList "badts".toList
    rfl rfl rfl rfl rfl

/-- Claim C6 counterexample: with schema `LastModifiedDate,Key`, the line
`'badts'` parses to a record whose timestamp column holds the malformed
value `'badts'` but which lacks a `'Key'` column; the code silently skips it
and goes on to yield the following record with no error, whereas the claim
says any record with a malformed driving-timestamp value fails the whole
scan at that record. -/
theorem claim_C6_counterexample :
    parseTs "badts".toList = none
    ∧ buildInfo [lmdCol, keyCol] "badts".toList = .ok [(lmdCol, "badts".toList)]
    ∧ pyGet [(lmdCol, "badts".toList)] lmdCol = some "badts".toList
    ∧ scanLines [lmdCol, keyCol] none none none none lmdCol
        ["badts".toList, "2023-01-01T00:00:00.000000Z,k".toList]
      = ([[(lmdCol, "2023-01-01T00:00:00.000000Z".toList), (keyCol, "k".toList)]],
         none) :=
  ⟨rfl, rfl, rfl, rfl⟩

theorem pyGet_append_last (r : Rec) (n v : List Char) :
    pyGet (r ++ [(n, v)]) n = some v := by
  rw [pyGet, List.filter_append]
  have hf : List.filter (fun p => p.1 == n) [(n, v)] = [(n, v)] := by simp
  rw [hf, List.getLast?_concat]
  rfl

theorem pyGet_append_of_ne (r : Rec) (n v m : List Char) (h : ¬ n = m) :
    pyGet (r ++ [(n, v)]) m = pyGet r m := by
  rw [pyGet, pyGet, List.filter_append]
  have hf : List.filter (fun p => p.1 == m) [(n, v)] = [] := by simp [h]
  rw [hf, List.append_nil]

/-- Claim C7 (confirmed): per processed line, a record lacking a `'Key'`
column is dropped; a record whose date-truncated timestamp falls outside the
inclusive `[start_date, end_date]` window is dropped; and every yielded
record carries a derived `'url'` field `'s3://' + Bucket + '/' + Key`
whenever the schema has both `'Bucket'` and `'Key'` columns. -/
theorem claim_C7 (schema : List (List Char)) (pfxF sfxF : Option (List Char))
    (startD endD : Option PyDate) (dtKey : List Char) :
    (∀ line info, buildInfo schema line = .ok info → pyGet info keyCol = none →
        processLine schema pfxF sfxF startD endD dtKey line = .ok none)
    ∧ (∀ line info kv dv d, buildInfo schema line = .ok info →
        pyGet info keyCol = some kv → pyGet info dtKey = some dv →
        parseTs dv = some d → outsideWindow startD endD d = true →
        processLine schema pfxF sfxF startD endD dtKey line = .ok none)
    ∧ (∀ line r, processLine schema pfxF sfxF startD endD dtKey line = .ok (some r) →
        schema.contains bucketCol = true → schema.contains keyCol = true →
        ∃ bv kv, pyGet r bucketCol = some bv ∧ pyGet r keyCol = some kv
          ∧ pyGet r urlCol = some (s3url bv kv)) := by
  refine ⟨?_, ?_, ?_⟩
  · intro line info hbi hkey
    rw [processLine, hbi]
    simp only [hkey]
  · intro line info kv dv d hbi hkey hdt hts houts
    rw [processLine, hbi]
    simp only [hkey, hdt, hts]
    rw [if_pos houts]
  · intro line r hp hcb hck
    rw [processLine] at hp
    rcases hbi : buildInfo schema line with e | info <;> rw [hbi] at hp
    · exact absurd hp (by simp)
    rcases hkey : pyGet info keyCol with _ | kv <;> simp only [hkey] at hp
    · exact absurd hp (by simp)
    rcases hdt : pyGet info dtKey with _ | dv <;> simp only [hdt] at hp
    · exact absurd hp (by simp)
    rcases hts : parseTs dv with _ | d <;> simp only [hts] at hp
    · exact absurd hp (by simp)
    generalize houts : outsideWindow startD endD d = ob at hp
    cases ob
    case true =>
      rw [if_pos rfl] at hp
      exact absurd hp (by simp)
    rw [if_neg Bool.false_ne_true] at hp
    generalize hpf : (match pfxF with
                      | some p => !(kv.take p.length == p)
                      | none => false) = pb at hp
    cases pb
    case true =>
      rw [if_pos rfl] at hp
      exact absurd hp (by simp)
    rw [if_neg Bool.false_ne_true] at hp
    generalize hsf : (match sfxF with
                      | none => true
                      | some s => isSuf s kv) = sb at hp
    cases sb
    case false =>
      rw [if_neg Bool.false_ne_true] at hp
      exact absurd hp (by simp)
    rw [if_pos rfl] at hp
    rw [hcb, hck] at hp
    simp only [Bool.and_self, if_true] at hp
    rcases hbv : pyGet info bucketCol with _ | bv <;> rw [hbv] at hp
    · exact absurd hp (by simp)
    have hr : info ++ [(urlCol, s3url bv kv)] = r := by
      have h2 := hp
      simp at h2
      exact h2
    refine ⟨bv, kv, ?_, ?_, ?_⟩
    · rw [← hr, pyGet_append_of_ne info urlCol (s3url bv kv) bucketCol (by decide)]
      exact hbv
    · rw [← hr, pyGet_append_of_ne info urlCol (s3url bv kv) keyCol (by decide)]
      exact hkey
    · rw [← hr, pyGet_append_last]

def ts7 : List Char := "2023-05-05T01:02:03.000004Z".toList

def r7 : Rec :=
  [(bucketCol, "b".toList), (keyCol, "k".toList), (lmdCol, ts7),
   (urlCol, s3url "b".toList "k".toList)]

/-- Claim C7 witness: all three conclusions instantiated on concrete lines:
a `Key`-less record is dropped, an out-of-window record is dropped, and a
yielded record carries the derived url. -/
theorem claim_C7_witness :
    processLine [bucketCol] none none none none lmdCol "b".toList = .ok none
    ∧ processLine [keyCol, lmdCol] none none (some ⟨2000, 1, 1⟩) none lmdCol
        "k,1999-01-01T00:00:00.000000Z".toList = .ok none
    ∧ ∃ bv kv, pyGet r7 bucketCol = some bv ∧ pyGet r7 keyCol = some kv
        ∧ pyGet r7 urlCol = some (s3url bv kv) :=
  ⟨(claim_C7 [bucketCol] none none none none lmdCol).1 "b".toList
      [(bucketCol, "b".toList)] rfl rfl,
   (claim_C7 [keyCol, lmdCol] none none (some ⟨2000, 1, 1⟩) none lmdCol).2.1
      "k,1999-01-01T00:00:00.000000Z".toList
      [(keyCol, "k".toList), (lmdCol, "1999-01-01T00:00:00.000000Z".toList)]
      "k".toList "1999-01-01T00:00:00.000000Z".toList ⟨1999, 1, 1⟩
      rfl rfl rfl rfl rfl,
   (claim_C7 [bucketCol, keyCol, lmdCol] none none none none lmdCol).2.2
      "b,k,2023-05-05T01:02:03.000004Z".toList r7 rfl rfl rfl⟩

/-- One HTTP header: name and value. -/
abbrev Hdr := List Char × List Char

/-- Lexicographic (code-point) order on strings, as Python `sorted` uses. -/
def lexLe : List Char → List Char → Bool
  | [], _ => true
  | _ :: _, [] => false
  | a :: as, b :: bs => if a = b then lexLe as bs else decide (a < b)

def insertHdr (h : Hdr) : List Hdr → List Hdr
  | [] => [h]
  | x :: xs => if lexLe h.1 x.1 then h :: x :: xs else x :: insertHdr h xs

/-- `sorted(headers)`: the headers ordered by name (insertion sort; the
header names are pairwise distinct, so any sort agrees). -/
def sortHdrs : List Hdr → List Hdr
  | [] => []
  | x :: xs => insertHdr x (sortHdrs xs)

def payloadHash : List Char := "UNSIGNED-PAYLOAD".toList

def hostHdrName : List Char := "host".toList
def shaHdrName : List Char := "x-amz-content-sha256".toList
def dateHdrName : List Char := "x-amz-date".toList
def payerHdrName : List Char := "x-amz-request-payer".toList
def aclHdrName : List Char := "x-amz-acl".toList
def tokHdrName : List Char := "x-amz-security-token".toList
def authHdrName : List Char := "Authorization".toList
def ctypeHdrName : List Char := "content-type".toList

/-- `'\n'.join('%s:%s' % (key, headers[key]) for key in sorted(headers)) + '\n'`. -/
def canonicalHeadersStr (hdrs : List Hdr) : List Char :=
  joinSep '\n' ((sortHdrs hdrs).map (fun h => h.1 ++ ':' :: h.2)) ++ ['\n']

/-- `';'.join(sorted(headers.keys()))`. -/
def signedHeadersStr (hdrs : List Hdr) : List Char :=
  joinSep ';' ((sortHdrs hdrs).map (fun h => h.1))

/-- The canonical request of `get_presigned_url` (s3.py lines 228-249):
`'%s\n%s\n%s\n%s\n%s\n%s' % (rtype, '/' + key, '', canonical_headers,
signed_headers, payload_hash)` — note the key is used verbatim, and the
query string slot is empty. -/
def canonicalRequest (rtype key : List Char) (hdrs : List Hdr) : List Char :=
  rtype ++ ['\n'] ++ ('/' :: key) ++ ['\n'] ++ [] ++ ['\n']
    ++ canonicalHeadersStr hdrs ++ ['\n'] ++ signedHeadersStr hdrs ++ ['\n']
    ++ payloadHash

def hexDigit (n : Nat) : Char :=
  if n < 10 then Char.ofNat (48 + n) else Char.ofNat (87 + n)

/-- Modelled from the spec's words for C1: standard percent-encoding of a
URI path (unreserved characters and the path separator kept, everything
else `%`-escaped).  The source never URL-encodes the key; this definition
exists only to state the claim's version of the canonical request. -/
def uriEncode (s : List Char) : List Char :=
  (s.map (fun c =>
    if c.isAlphanum || c == '-' || c == '.' || c == '_' || c == '~' || c == '/'
    then [c]
    else '%' :: hexDigit (c.toNat / 16) :: [hexDigit (c.toNat % 16)])).flatten

/-- Modelled from the claim's words for C1: method, newline, `'/'` followed
by the URL-encoded key, newline, an empty query-string line, newline, the
canonical headers (each `name:value` terminated by a newline, sorted by
name), newline, the semicolon-joined sorted names, newline, and the
`'UNSIGNED-PAYLOAD'` sentinel. -/
def claimCanonicalRequest (rtype key : List Char) (hdrs : List Hdr) : List Char :=
  rtype ++ ['\n'] ++ ('/' :: uriEncode key) ++ ['\n'] ++ [] ++ ['\n']
    ++ ((sortHdrs hdrs).map (fun h => h.1 ++ ':' :: h.2 ++ ['\n'])).flatten
    ++ ['\n'] ++ signedHeadersStr hdrs ++ ['\n'] ++ payloadHash

/-- The claim's canonical request with the one amendment the code forces:
the object key enters the canonical URI verbatim, with no URL-encoding. -/
def amendedCanonicalRequest (rtype key : List Char) (hdrs : List Hdr) : List Char :=
  rtype ++ ['\n'] ++ ('/' :: key) ++ ['\n'] ++ [] ++ ['\n']
    ++ ((sortHdrs hdrs).map (fun h => h.1 ++ ':' :: h.2 ++ ['\n'])).flatten
    ++ ['\n'] ++ signedHeadersStr hdrs ++ ['\n'] ++ payloadHash

/-- The ambient environment read by `get_presigned_url`: each field is the
optional value of the corresponding environment variable (`none` = unset;
`some []` = set to the empty string, which `os.environ.get` still returns). -/
structure Env where
  bucketAccessKey : Option (List Char)
  accessKey : Option (List Char)
  bucketSecretKey : Option (List Char)
  secretKey : Option (List Char)
  bucketRegion : Option (List Char)
  regionVar : Option (List Char)
  sessionToken : Option (List Char)
deriving DecidableEq, Repr

/-- `os.environ.get(X, os.environ.get(Y))`: the override slot wins whenever
it is set (even to an empty string), else the default slot. -/
def envGet2 (a b : Option (List Char)) : Option (List Char) :=
  match a with
  | some v => some v
  | none => b

/-- Region resolution: explicit parameter beats
`os.environ.get('AWS_BUCKET_REGION', os.environ.get('AWS_REGION', 'eu-central-1'))`. -/
def resolveRegion (e : Env) (awsRegion : Option (List Char)) : List Char :=
  match awsRegion with
  | some r => r
  | none =>
    match e.bucketRegion with
    | some r => r
    | none =>
      match e.regionVar with
      | some r => r
      | none => "eu-central-1".toList

/-- Python truthiness of `os.environ.get('AWS_SESSION_TOKEN')`: set and
non-empty. -/
def sessionTruthy (e : Env) : Bool :=
  match e.sessionToken with
  | some t => !t.isEmpty
  | none => false

/-- The header dict of `get_presigned_url` just before canonicalization:
`host`, `x-amz-content-sha256`, `x-amz-date`, then conditionally
`x-amz-request-payer`, `x-amz-acl` and `x-amz-security-token` (the last
exactly when `tokCond` holds, i.e. the session token is truthy and
`AWS_BUCKET_ACCESS_KEY_ID` is not in the environment). -/
def buildHeaders (host amzdate : List Char) (requesterPays publicAcl tokCond : Bool)
    (tok : List Char) : List Hdr :=
  let h1 : List Hdr := [(hostHdrName, host), (shaHdrName, payloadHash),
    (dateHdrName, amzdate)]
  let h2 := if requesterPays then h1 ++ [(payerHdrName, "requester".toList)] else h1
  let h3 := if publicAcl then h2 ++ [(aclHdrName, "public-read".toList)] else h2
  if tokCond then h3 ++ [(tokHdrName, tok)] else h3

/-- The `(url, headers)` pair `get_presigned_url` returns. -/
structure PresignResult where
  url : List Char
  headers : Option (List Hdr)
deriving DecidableEq, Repr

/-- Shallow embedding of `s3.get_presigned_url` (s3.py lines 189-262).  The
wall clock (`amzdate`/`datestamp` from `datetime.utcnow()`) and the
`hashlib`/`hmac` primitives (`sha256hex` for `sha256(...).hexdigest()`,
`hmacSha` for `hmac.new(...).digest()`, `hmacShaHex` for
`hmac.new(...).hexdigest()`) are standard-library collaborators passed as
parameters; everything downstream of them is data the claims never inspect.
Credential resolution, the unsigned fallback, the URL parse, the header set,
the canonical request, the scope, the string-to-sign, the four-stage HMAC
key-derivation chain and the `Authorization` composition mirror the source
line by line. -/
def get_presigned_url (e : Env) (url : List Char) (awsRegion : Option (List Char))
    (rtype : List Char) (publicAcl requesterPays : Bool)
    (contentType : Option (List Char)) (amzdate datestamp : List Char)
    (sha256hex : List Char → List Char)
    (hmacSha : List Char → List Char → List Char)
    (hmacShaHex : List Char → List Char → List Char) :
    Except UrlErr PresignResult :=
  match envGet2 e.bucketAccessKey e.accessKey, envGet2 e.bucketSecretKey e.secretKey with
  | some accessKey, some secretKey =>
    (match urlparse url with
     | .error er => .error er
     | .ok parts =>
       let region := resolveRegion e awsRegion
       let host := parts.bucket ++ ".s3.amazonaws.com".toList
       let tokCond := sessionTruthy e && e.bucketAccessKey.isNone
       let hdrs := buildHeaders host amzdate requesterPays publicAcl tokCond
         (e.sessionToken.getD [])
       let canon := canonicalRequest rtype parts.key hdrs
       let scope := datestamp ++ '/' :: region ++ '/' :: "s3".toList
         ++ '/' :: "aws4_request".toList
       let sts := "AWS4-HMAC-SHA256".toList ++ '\n' :: amzdate ++ '\n' :: scope
         ++ '\n' :: sha256hex canon
       let kDate := hmacSha ("AWS4".toList ++ secretKey) datestamp
       let kRegion := hmacSha kDate region
       let kService := hmacSha kRegion "s3".toList
       let kSigning := hmacSha kService "aws4_request".toList
       let signature := hmacShaHex kSigning sts
       let auth := "AWS4-HMAC-SHA256".toList ++ ' ' :: "Credential=".toList
         ++ accessKey ++ '/' :: scope ++ ", ".toList ++ "SignedHeaders=".toList
         ++ signedHeadersStr hdrs ++ ", ".toList ++ "Signature=".toList ++ signature
       let hdrs2 := hdrs ++ [(authHdrName, auth)]
       let hdrs3 := match contentType with
         | some ct => hdrs2 ++ [(ctypeHdrName, ct)]
         | none => hdrs2
       .ok ⟨"https://".toList ++ host ++ '/' :: parts.key, some hdrs3⟩)
  | _, _ => .ok ⟨url, none⟩

theorem insertHdr_ne_nil (h : Hdr) (l : List Hdr) : insertHdr h l ≠ [] := by
  cases l with
  | nil => simp [insertHdr]
  | cons x xs =>
    simp only [insertHdr]
    split <;> simp

theorem sortHdrs_ne_nil (l : List Hdr) (h : l ≠ []) : sortHdrs l ≠ [] := by
  cases l with
  | nil => exact absurd rfl h
  | cons x xs =>
    simp only [sortHdrs]
    exact insertHdr_ne_nil x (sortHdrs xs)

theorem buildHeaders_ne_nil (host amzdate tok : List Char)
    (rp pa tc : Bool) : buildHeaders host amzdate rp pa tc tok ≠ [] := by
  cases rp <;> cases pa <;> cases tc <;> simp [buildHeaders]

theorem joinSep_newline_eq_flatten (ss : List (List Char)) (h : ss ≠ []) :
    joinSep '\n' ss ++ ['\n'] = (ss.map (fun s => s ++ ['\n'])).flatten := by
  induction ss with
  | nil => exact absurd rfl h
  | cons s ss2 ih =>
    cases ss2 with
    | nil => simp [joinSep]
    | cons t ts =>
      have ih2 := ih (List.cons_ne_nil t ts)
      show (s ++ '\n' :: joinSep '\n' (t :: ts)) ++ ['\n'] = _
      rw [List.append_assoc, List.cons_append, ih2]
      simp [List.append_assoc]

theorem canonicalRequest_eq_amended (rtype key : List Char) (hdrs : List Hdr)
    (hne : hdrs ≠ []) :
    canonicalRequest rtype key hdrs = amendedCanonicalRequest rtype key hdrs := by
  have hm : (sortHdrs hdrs).map (fun h : Hdr => h.1 ++ ':' :: h.2) ≠ [] := by
    simpa using sortHdrs_ne_nil hdrs hne
  rw [canonicalRequest, amendedCanonicalRequest, canonicalHeadersStr]
  rw [joinSep_newline_eq_flatten _ hm]
  rw [List.map_map]
  rfl

/-- Claim C1 (corrected): the canonical request hashed into the
string-to-sign is exactly method, newline, `'/'` followed by the object key
taken verbatim (the code never URL-encodes it — this is the one amendment),
newline, an empty query-string line, newline, the canonical headers (each
`name:value` terminated by a newline, sorted lexicographically by name),
newline, the semicolon-joined sorted header names, newline, and the
`'UNSIGNED-PAYLOAD'` sentinel. -/
theorem claim_C1 (rtype key host amzdate tok : List Char)
    (requesterPays publicAcl tokCond : Bool) :
    canonicalRequest rtype key
        (buildHeaders host amzdate requesterPays publicAcl tokCond tok)
      = amendedCanonicalRequest rtype key
        (buildHeaders host amzdate requesterPays publicAcl tokCond tok) :=
  canonicalRequest_eq_amended rtype key _
    (buildHeaders_ne_nil host amzdate tok requesterPays publicAcl tokCond)

/-- Claim C1 counterexample: for the key `'a b'` (a space needs encoding)
the code's canonical request differs from the claim's URL-encoded one. -/
theorem claim_C1_counterexample :
    canonicalRequest "GET".toList "a b".toList
        (buildHeaders "bkt.s3.amazonaws.com".toList "20230101T000000Z".toList
          false false false [])
      ≠ claimCanonicalRequest "GET".toList "a b".toList
        (buildHeaders "bkt.s3.amazonaws.com".toList "20230101T000000Z".toList
          false false false []) := by
  decide

/-- Claim C2 (corrected): the access key and the secret key are resolved
independently, each through its own override-then-default variable pair, so
`get_presigned_url` returns the untouched `(url, None)` exactly when the
resolved access key or the resolved secret key is absent — not when
"neither slot yields both keys". -/
theorem claim_C2 (e : Env) (url : List Char) (awsRegion : Option (List Char))
    (rtype : List Char) (publicAcl requesterPays : Bool)
    (contentType : Option (List Char)) (amzdate datestamp : List Char)
    (sha256hex : List Char → List Char)
    (hmacSha hmacShaHex : List Char → List Char → List Char) :
    get_presigned_url e url awsRegion rtype publicAcl requesterPays contentType
        amzdate datestamp sha256hex hmacSha hmacShaHex = .ok ⟨url, none⟩
      ↔ (envGet2 e.bucketAccessKey e.accessKey = none
          ∨ envGet2 e.bucketSecretKey e.secretKey = none) := by
  rw [get_presigned_url]
  rcases ha : envGet2 e.bucketAccessKey e.accessKey with _ | ak
  · simp
  · rcases hs : envGet2 e.bucketSecretKey e.secretKey with _ | sk
    · simp
    · rcases hu : urlparse url with er | parts
      · simp [hu]
      · simp [hu]

def presignHeaders (r : Except UrlErr PresignResult) : Option (List Hdr) :=
  match r with
  | .ok p => p.headers
  | .error _ => none

/-- The environment of the C2 counterexample: the override slot has only an
access key, the default slot has only a secret key, so neither slot yields
both — yet the code signs, mixing the two slots. -/
def e2c : Env := ⟨some "A".toList, none, none, some "S".toList, none, none, none⟩

/-- Claim C2 counterexample: with `AWS_BUCKET_ACCESS_KEY_ID='A'` and
`AWS_SECRET_ACCESS_KEY='S'` only, neither slot yields both keys, but
`get_presigned_url` still returns signed headers instead of `(url, None)`. -/
theorem claim_C2_counterexample :
    e2c.bucketSecretKey = none
    ∧ e2c.accessKey = none
    ∧ presignHeaders (get_presigned_url e2c "s3://b/k".toList none "GET".toList
        false false none "20230101T000000Z".toList "20230101".toList
        (fun _ => []) (fun _ _ => []) (fun _ _ => [])) ≠ none :=
  ⟨rfl, rfl, by decide⟩

def resultHasHeader (r : Except UrlErr PresignResult) (n : List Char) : Bool :=
  match r with
  | .ok p =>
    (match p.headers with
     | some hs => hs.any (fun q => q.1 == n)
     | none => false)
  | .error _ => false

def isOkB : Except UrlErr UrlParts → Bool
  | .ok _ => true
  | .error _ => false

theorem buildHeaders_any_tok (host amzdate tok : List Char) (rp pa tc : Bool) :
    ((buildHeaders host amzdate rp pa tc tok).any (fun q => q.1 == tokHdrName)) = tc := by
  have e1 : (hostHdrName == tokHdrName) = false := by decide
  have e2 : (shaHdrName == tokHdrName) = false := by decide
  have e3 : (dateHdrName == tokHdrName) = false := by decide
  have e4 : (payerHdrName == tokHdrName) = false := by decide
  have e5 : (aclHdrName == tokHdrName) = false := by decide
  have e6 : (tokHdrName == tokHdrName) = true := by decide
  cases rp <;> cases pa <;> cases tc <;>
    simp [buildHeaders, e1, e2, e3, e4, e5, e6]

/-- Claim C3 (confirmed): whenever `get_presigned_url` produces signed
headers, the `x-amz-security-token` header is present iff the ambient
session token is set and non-empty AND the override variable
`AWS_BUCKET_ACCESS_KEY_ID` is not in the environment; in particular an
override access key suppresses the token header even when a token exists. -/
theorem claim_C3 (e : Env) (url : List Char) (awsRegion : Option (List Char))
    (rtype : List Char) (publicAcl requesterPays : Bool)
    (contentType : Option (List Char)) (amzdate datestamp : List Char)
    (sha256hex : List Char → List Char)
    (hmacSha hmacShaHex : List Char → List Char → List Char)
    (h1 : envGet2 e.bucketAccessKey e.accessKey ≠ none)
    (h2 : envGet2 e.bucketSecretKey e.secretKey ≠ none)
    (h3 : isOkB (urlparse url) = true) :
    resultHasHeader (get_presigned_url e url awsRegion rtype publicAcl
        requesterPays contentType amzdate datestamp sha256hex hmacSha hmacShaHex)
        tokHdrName
      = (sessionTruthy e && e.bucketAccessKey.isNone) := by
  have ea : (authHdrName == tokHdrName) = false := by decide
  have ec : (ctypeHdrName == tokHdrName) = false := by decide
  rcases ha : envGet2 e.bucketAccessKey e.accessKey with _ | ak
  · exact absurd ha h1
  rcases hs : envGet2 e.bucketSecretKey e.secretKey with _ | sk
  · exact absurd hs h2
  rcases hu : urlparse url with er | parts
  · rw [hu] at h3
    exact absurd h3 (by simp [isOkB])
  rw [get_presigned_url, ha, hs, hu]
  rcases contentType with _ | ct
  · simp only [resultHasHeader, List.any_append, List.any_cons, List.any_nil,
      buildHeaders_any_tok, ea]
    simp
  · simp only [resultHasHeader, List.any_append, List.any_cons, List.any_nil,
      buildHeaders_any_tok, ea, ec]
    simp

/-- The environment of the C3 witness: default-slot credentials and a
session token. -/
def e3w : Env :=
  ⟨none, some "A".toList, none, some "S".toList, none, none, some "T".toList⟩

/-- Claim C3 witness: concrete signed call via the theorem. -/
theorem claim_C3_witness :
    resultHasHeader (get_presigned_url e3w "s3://b/k".toList none "GET".toList
        false false none "20230101T000000Z".toList "20230101".toList
        (fun _ => []) (fun _ _ => []) (fun _ _ => [])) tokHdrName
      = (sessionTruthy e3w && e3w.bucketAccessKey.isNone) :=
  claim_C3 e3w "s3://b/k".toList none "GET".toList false false none
    "20230101T000000Z".toList "20230101".toList (fun _ => []) (fun _ _ => [])
    (fun _ _ => []) (by decide) (by decide) (by decide)

/-- The `ExtraArgs` mapping of `s3.upload`. -/
abbrev Extra := List (List Char × List Char)

def aclKey : List Char := "ACL".toList

def publicReadVal : List Char := "public-read".toList

/-- Shallow embedding of `s3.upload` (s3.py lines 57-66), restricted to its
effect on the `extra` mapping.  Python evaluates the default `extra={}` once
at function definition, so the default dict is module state; the embedding
threads it explicitly: `defExtra` is the shared default mapping before the
call, the first result component is the mapping handed to
`upload_fileobj(..., ExtraArgs=extra)` (the caller's own dict object when
one was passed, mutated in place by `extra['ACL'] = 'public-read'`), and the
second component is the shared default mapping after the call. -/
def upload (publicFlag : Bool) (extraArg : Option Extra) (defExtra : Extra) :
    Extra × Extra :=
  let extra := match extraArg with | some x => x | none => defExtra
  let extra2 := if publicFlag then extra ++ [(aclKey, publicReadVal)] else extra
  (extra2,
   match extraArg with
   | some _ => defExtra
   | none => extra2)

/-- Claim C10 (confirmed): `upload` with `public=True` mutates the
caller-visible `extra` mapping by inserting `ACL='public-read'`; when
`extra` is omitted this mutates the shared default mapping, and every later
call that also omits `extra` — even with `public=False` — sends
`ACL='public-read'` to the transport (and leaves the poisoned default in
place). -/
theorem claim_C10 (st e : Extra) :
    pyGet (upload true (some e) st).1 aclKey = some publicReadVal
    ∧ (upload true none st).2 = st ++ [(aclKey, publicReadVal)]
    ∧ pyGet (upload false none ((upload true none st).2)).1 aclKey
        = some publicReadVal
    ∧ (upload false none ((upload true none st).2)).2
        = (upload true none st).2 := by
  refine ⟨?_, rfl, ?_, rfl⟩
  · exact pyGet_append_last e aclKey publicReadVal
  · exact pyGet_append_last st aclKey publicReadVal
